import Mathlib

/-!
Verification development for the arib2bdnxml subtitle pipeline.

The embedding below mirrors, over exact rationals, the timeline/compositing
core of the program:

* `time_to_tc`, `adjust_timestamp`, `determine_video_format` from
  `src/bdn_xml_generator.cpp` (C++ `double` arithmetic is modelled by `ℚ`,
  `std::round` half-away-from-zero by `croundQ`, and C++ `int` division,
  which truncates toward zero, by `Int.tdiv` / `Int.tmod`);
* `adjust_timestamp_for_range` and the main decode loop (clear-command
  handling, one-frame lookahead end resolution, zero-duration filtering,
  event emission, and the do-while exit test that skips a stream-final
  clear command) from the `main` translation unit, as `process_frames`;
* the per-pixel alpha compositing rule of
  `FFmpegWrapper::get_next_subtitle_frame`, as `blend_pixel` (the C++
  `float` blend is modelled by exact rational arithmetic, with the
  truncating `uint8_t` store modelled by `Rat.floor`).

Events store the start/end times in seconds; the program stores the
corresponding `HH:MM:SS:FF` strings obtained by applying `time_to_tc`
at emission, so rewriting a stored timecode (the clear-command path)
corresponds to rewriting the stored seconds value here.
-/

namespace AribTwoBdnxml

/-- Round half up, written with `Rat.floor` so that it evaluates inside
the kernel (it agrees with Mathlib's `round`, see `roundQ_eq_round`). -/
def roundQ (x : ℚ) : ℤ :=
  Rat.floor (x + mkRat 1 2)

/-- C++ `std::round`: round half away from zero (it differs from round
half up on negative half-integers only). -/
def croundQ (x : ℚ) : ℤ :=
  if x < 0 then -roundQ (-x) else roundQ x

/-- `BDNXmlGenerator::time_to_tc`, total frame count: negative input is
clamped to 0, then `total_frames = round(seconds * fps)`. -/
def tc_total_frames (seconds fps : ℚ) : ℤ :=
  croundQ ((if seconds < 0 then 0 else seconds) * fps)

/-- `BDNXmlGenerator::time_to_tc`, the four fields before the carry
normalization (lines 68-77): successive C-style division of the total
frame count by `fps_int*3600`, `fps_int*60`, `fps_int`. -/
def tc_raw (seconds fps : ℚ) : ℤ × ℤ × ℤ × ℤ :=
  let total_frames := tc_total_frames seconds fps
  let fps_int := croundQ fps
  let frames_per_hour := fps_int * 3600
  let frames_per_minute := fps_int * 60
  let hours := total_frames.tdiv frames_per_hour
  let remaining_frames := total_frames.tmod frames_per_hour
  let minutes := remaining_frames.tdiv frames_per_minute
  let remaining_frames2 := remaining_frames.tmod frames_per_minute
  let secs := remaining_frames2.tdiv fps_int
  let frames := remaining_frames2.tmod fps_int
  (hours, minutes, secs, frames)

/-- `BDNXmlGenerator::time_to_tc`, the two carry branches (lines 79-88):
seconds ≥ 60 carry into minutes, minutes ≥ 60 carry into hours. -/
def tc_carry : ℤ × ℤ × ℤ × ℤ → ℤ × ℤ × ℤ × ℤ :=
  fun t =>
    let hours := t.1
    let minutes := t.2.1
    let secs := t.2.2.1
    let frames := t.2.2.2
    let minutes2 := if 60 ≤ secs then minutes + secs.tdiv 60 else minutes
    let secs2 := if 60 ≤ secs then secs.tmod 60 else secs
    let hours2 := if 60 ≤ minutes2 then hours + minutes2.tdiv 60 else hours
    let minutes3 := if 60 ≤ minutes2 then minutes2.tmod 60 else minutes2
    (hours2, minutes3, secs2, frames)

/-- `BDNXmlGenerator::time_to_tc`: the full field computation
(`format_tc` zero-pads these four fields into `HH:MM:SS:FF`). -/
def time_to_tc (seconds fps : ℚ) : ℤ × ℤ × ℤ × ℤ :=
  tc_carry (tc_raw seconds fps)

/-- `BDNXmlGenerator::adjust_timestamp`: re-base onto the stream start. -/
def adjust_timestamp (timestamp start_time : ℚ) : ℚ :=
  timestamp - start_time

/-- `BDNXmlGenerator::determine_video_format`. -/
def determine_video_format (canvas_height : ℤ) (is_interlaced : Bool) : String :=
  if canvas_height = 1080 then (if is_interlaced then "1080i" else "1080p")
  else if canvas_height = 720 then "720p"
  else if canvas_height = 480 then (if is_interlaced then "480i" else "480p")
  else "1080p"

/-- `adjust_timestamp_for_range` (main translation unit, lines 90-133):
`none` means the event is dropped; `some (s, e)` is the kept, possibly
clamped and re-based interval. -/
def adjust_timestamp_for_range (adjusted_start adjusted_end : ℚ)
    (ss to_ : Option ℚ) : Option (ℚ × ℚ) :=
  if (match ss with | some v => decide (adjusted_start < v) | none => false) then
    none
  else if (match to_ with | some v => decide (v ≤ adjusted_start) | none => false) then
    none
  else
    let clamped_end :=
      match to_ with
      | some v => if v < adjusted_end then v else adjusted_end
      | none => adjusted_end
    match ss with
    | some v => some (adjusted_start - v, clamped_end - v)
    | none => some (adjusted_start, clamped_end)

/-- `SubtitleFrame` (ffmpeg_wrapper.hpp): `bitmap = none` is a clear
command; `some (w, h)` carries the composited bitmap's dimensions.
`start_time` / `end_time` are the absolute display times
(packet PTS + start/end display offset) or both equal to the PTS when
the display offsets are absent. -/
structure SubtitleFrame where
  bitmap : Option (ℕ × ℕ)
  timestamp : ℚ
  start_time : ℚ
  end_time : ℚ
  x : ℤ
  y : ℤ
deriving DecidableEq, Repr

/-- `SubtitleEvent` (bdn_xml_generator.hpp) with the two timecodes kept
as the seconds values they are formatted from. -/
structure SubtitleEvent where
  in_tc : ℚ
  out_tc : ℚ
  x : ℤ
  y : ℤ
  width : ℕ
  height : ℕ
deriving DecidableEq, Repr

/-- Run-wide configuration of the decode loop: the container start time
(`video_info.start_time`) and the optional `--ss` / `--to` clip range. -/
structure RunConfig where
  start_time : ℚ
  ss : Option ℚ
  to_ : Option ℚ
deriving DecidableEq, Repr

/-- The code's validity test for explicit display times
(`start_time > 0 && end_time > start_time`, main loop line 313). -/
def valid_display_times (f : SubtitleFrame) : Prop :=
  0 < f.start_time ∧ f.start_time < f.end_time

instance (f : SubtitleFrame) : Decidable (valid_display_times f) :=
  inferInstanceAs (Decidable (_ ∧ _))

/-- Start/end resolution for a Show frame (main loop lines 304-343):
explicit display times when valid, otherwise packet PTS for the start
and a one-frame lookahead (or a 1-second default) for the end. -/
def resolveTimes (vstart : ℚ) (cur : SubtitleFrame)
    (lookahead : Option SubtitleFrame) : ℚ × ℚ :=
  if valid_display_times cur then
    (adjust_timestamp cur.start_time vstart, adjust_timestamp cur.end_time vstart)
  else
    let adjusted_start := adjust_timestamp cur.timestamp vstart
    let adjusted_end :=
      match lookahead with
      | some nxt =>
          if nxt.bitmap.isSome then
            if valid_display_times nxt then
              adjust_timestamp nxt.start_time vstart
            else
              adjust_timestamp nxt.timestamp vstart
          else
            adjust_timestamp nxt.timestamp vstart
      | none => adjusted_start + 1
    (adjusted_start, adjusted_end)

/-- End time written by a clear command (main loop lines 263-274):
re-base onto the stream start, clamp to `--to`, subtract `--ss`. -/
def clear_end_time (cfg : RunConfig) (ts : ℚ) : ℚ :=
  let t := adjust_timestamp ts cfg.start_time
  let t2 := match cfg.to_ with | some v => if v < t then v else t | none => t
  match cfg.ss with | some v => t2 - v | none => t2

/-- `events.back().out_tc = ...`: rewrite the last event's end time. -/
def set_last_out : List SubtitleEvent → ℚ → List SubtitleEvent
  | [], _ => []
  | [e], t => [{ e with out_tc := t }]
  | e :: e2 :: es, t => e :: set_last_out (e2 :: es) t

/-- One iteration of the decode loop (main loop lines 255-403) acting on
the accumulated event list, given the current frame and the lookahead
frame (PNG encoding is external and modelled as succeeding). -/
def process_frame (cfg : RunConfig) (cur : SubtitleFrame)
    (lookahead : Option SubtitleFrame)
    (events : List SubtitleEvent) : List SubtitleEvent :=
  match cur.bitmap with
  | none =>
      if 0 < cur.timestamp then
        set_last_out events (clear_end_time cfg cur.timestamp)
      else
        events
  | some (w, h) =>
      if w = 0 ∨ h = 0 then
        events
      else
        let resolved := resolveTimes cfg.start_time cur lookahead
        match adjust_timestamp_for_range resolved.1 resolved.2 cfg.ss cfg.to_ with
        | none => events
        | some (s, e) =>
            if e ≤ s then
              events
            else
              events ++ [{ in_tc := s, out_tc := e, x := cur.x, y := cur.y,
                           width := w, height := h }]

/-- The decode do-while loop (main loop lines 255-403): process the
current frame with the next frame as lookahead, advance, then test
`subtitle_frame.bitmap != nullptr || has_next_frame`.  Because the test
runs after advancing, a Clear frame that is the final frame of the
stream (so that, after advancing onto it, `has_next_frame` is false)
makes the loop exit without processing it; any other frame, and a first
frame of any kind, is processed. -/
def run_loop (cfg : RunConfig) :
    SubtitleFrame → List SubtitleFrame → List SubtitleEvent →
      List SubtitleEvent
  | cur, [], events => process_frame cfg cur none events
  | cur, nxt :: rest2, events =>
      let events2 := process_frame cfg cur (some nxt) events
      if nxt.bitmap.isSome = true ∨ rest2 ≠ [] then
        run_loop cfg nxt rest2 events2
      else
        events2

/-- The final event list produced from a frame stream: the first frame
enters the do-while unconditionally; an empty stream produces nothing. -/
def process_frames (cfg : RunConfig) : List SubtitleFrame → List SubtitleEvent
  | [] => []
  | f :: rest => run_loop cfg f rest []

/-- One RGBA pixel; each channel is an 8-bit value. -/
structure RGBA where
  r : ℕ
  g : ℕ
  b : ℕ
  a : ℕ
deriving DecidableEq, Repr

/-- Per-pixel compositing rule of `FFmpegWrapper::get_next_subtitle_frame`
(lines 920-937): pixels with zero source alpha are skipped; fully opaque
source or fully transparent destination is copied; otherwise straight
alpha-over blending, with the truncating 8-bit store as `Nat.floor`. -/
def blend_pixel (src dst : RGBA) : RGBA :=
  if 0 < src.a then
    if src.a = 255 ∨ dst.a = 0 then
      src
    else
      let alpha : ℚ := mkRat src.a 255
      let inv_alpha : ℚ := 1 - alpha
      { r := (Rat.floor ((src.r : ℚ) * alpha + (dst.r : ℚ) * inv_alpha)).toNat,
        g := (Rat.floor ((src.g : ℚ) * alpha + (dst.g : ℚ) * inv_alpha)).toNat,
        b := (Rat.floor ((src.b : ℚ) * alpha + (dst.b : ℚ) * inv_alpha)).toNat,
        a := (Rat.floor ((src.a : ℚ) + (dst.a : ℚ) * inv_alpha)).toNat }
  else
    dst

/-! Specification-side definitions: these follow the wording of the spec's
claims (not the source) and are compared against the embedding above. -/

/-- The spec's description of clip-range trimming: drop when the start is
before `rangeStart` or at/after `rangeEnd`; otherwise clamp the end to
`rangeEnd`, then re-base both times by subtracting `rangeStart`. -/
def range_trim_spec (s e : ℚ) (rangeStart rangeEnd : Option ℚ) :
    Option (ℚ × ℚ) :=
  let dropped :=
    (match rangeStart with | some v => decide (s < v) | none => false) ||
    (match rangeEnd with | some v => decide (v ≤ s) | none => false)
  if dropped then
    none
  else
    let clamped := match rangeEnd with
      | some v => if v < e then v else e
      | none => e
    match rangeStart with
    | some v => some (s - v, clamped - v)
    | none => some (s, clamped)

/-- The spec's description of the lookahead end resolution for a Show
frame without valid explicit offsets: a next Show frame with valid
offsets contributes its display start; a next Show frame without valid
offsets, or a next Clear frame, contributes its primary timestamp; no
next frame yields a 1-second default. -/
def lookahead_end_spec (vstart start : ℚ) (nxt : Option SubtitleFrame) : ℚ :=
  match nxt with
  | some f =>
      if f.bitmap.isSome ∧ valid_display_times f then
        f.start_time - vstart
      else
        f.timestamp - vstart
  | none => start + 1

/-- The spec's per-pixel compositing rule, which has no case for a
source pixel of zero alpha: overwrite on opaque source or transparent
destination, otherwise blend. -/
def blend_pixel_claim (src dst : RGBA) : RGBA :=
  if src.a = 255 ∨ dst.a = 0 then
    src
  else
    let alpha : ℚ := mkRat src.a 255
    let inv_alpha : ℚ := 1 - alpha
    { r := (Rat.floor ((src.r : ℚ) * alpha + (dst.r : ℚ) * inv_alpha)).toNat,
      g := (Rat.floor ((src.g : ℚ) * alpha + (dst.g : ℚ) * inv_alpha)).toNat,
      b := (Rat.floor ((src.b : ℚ) * alpha + (dst.b : ℚ) * inv_alpha)).toNat,
      a := (Rat.floor ((src.a : ℚ) + (dst.a : ℚ) * inv_alpha)).toNat }

/-- The spec's description of the timecode computation: clamp negative
input, round the product with the exact fractional fps once, then derive
the four fields by successive Euclidean division with a final carry of
seconds into minutes and minutes into hours. -/
def time_to_tc_claim (seconds fps : ℚ) : ℤ × ℤ × ℤ × ℤ :=
  let totalFrames := croundQ ((if seconds < 0 then 0 else seconds) * fps)
  let fpsInt := croundQ fps
  let hours := totalFrames / (fpsInt * 3600)
  let r1 := totalFrames % (fpsInt * 3600)
  let minutes := r1 / (fpsInt * 60)
  let r2 := r1 % (fpsInt * 60)
  let secs := r2 / fpsInt
  let frames := r2 % fpsInt
  let minutes2 := if 60 ≤ secs then minutes + secs / 60 else minutes
  let secs2 := if 60 ≤ secs then secs % 60 else secs
  let hours2 := if 60 ≤ minutes2 then hours + minutes2 / 60 else hours
  let minutes3 := if 60 ≤ minutes2 then minutes2 % 60 else minutes2
  (hours2, minutes3, secs2, frames)

/-- The resolved (pre-clip-range) start of a frame, as the main loop
computes it: the display start when the explicit times are valid,
otherwise the packet timestamp, both re-based onto the stream start. -/
def resolved_start (vstart : ℚ) (f : SubtitleFrame) : ℚ :=
  if valid_display_times f then f.start_time - vstart else f.timestamp - vstart

/-! Helper lemmas about the rounding primitives. -/

theorem int_floor_eq_rat_floor (q : ℚ) : ⌊q⌋ = Rat.floor q := by
  rw [Rat.floor_def, Rat.floor_def']

theorem roundQ_eq_round (x : ℚ) : roundQ x = round x := by
  rw [roundQ, ← int_floor_eq_rat_floor, round_eq]
  norm_num [Rat.mkRat_eq_div]

theorem round_nonneg_of_nonneg {x : ℚ} (hx : 0 ≤ x) : 0 ≤ round x := by
  rw [round_eq, Int.floor_nonneg]
  linarith

theorem croundQ_of_nonneg {x : ℚ} (hx : 0 ≤ x) : croundQ x = round x := by
  rw [croundQ, if_neg (not_lt.2 hx), roundQ_eq_round]

theorem croundQ_nonneg {x : ℚ} (hx : 0 ≤ x) : 0 ≤ croundQ x := by
  rw [croundQ_of_nonneg hx]
  exact round_nonneg_of_nonneg hx

theorem pos_of_one_le_croundQ {x : ℚ} (h : 1 ≤ croundQ x) : 0 < x := by
  by_contra hx
  push_neg at hx
  rcases lt_or_eq_of_le hx with hlt | heq
  · rw [croundQ, if_pos hlt, roundQ_eq_round] at h
    have h2 : 0 ≤ round (-x) := round_nonneg_of_nonneg (by linarith)
    omega
  · subst heq
    rw [croundQ_of_nonneg le_rfl, round_zero] at h
    omega

theorem tc_total_frames_nonneg {seconds fps : ℚ} (hfps : 0 ≤ fps) :
    0 ≤ tc_total_frames seconds fps := by
  rw [tc_total_frames]
  refine croundQ_nonneg (mul_nonneg ?_ hfps)
  split_ifs with h
  · exact le_refl 0
  · exact le_of_not_lt h

/-- The four pre-carry fields of `time_to_tc`, with their ranges, under
the precondition that the rounded nominal rate is at least 1. -/
theorem tc_raw_bounds (seconds fps : ℚ) (hfi : 1 ≤ croundQ fps) :
    0 ≤ (tc_raw seconds fps).1 ∧
    0 ≤ (tc_raw seconds fps).2.1 ∧ (tc_raw seconds fps).2.1 < 60 ∧
    0 ≤ (tc_raw seconds fps).2.2.1 ∧ (tc_raw seconds fps).2.2.1 < 60 ∧
    0 ≤ (tc_raw seconds fps).2.2.2 ∧ (tc_raw seconds fps).2.2.2 < croundQ fps := by
  have hfps : 0 < fps := pos_of_one_le_croundQ hfi
  have htf : 0 ≤ tc_total_frames seconds fps := tc_total_frames_nonneg hfps.le
  simp only [tc_raw]
  set tf := tc_total_frames seconds fps
  set fi := croundQ fps
  have hA : (0:ℤ) < fi * 3600 := by positivity
  have hB : (0:ℤ) < fi * 60 := by positivity
  have hr1 : 0 ≤ tf.tmod (fi * 3600) := Int.tmod_nonneg _ htf
  have hr1lt : tf.tmod (fi * 3600) < fi * 3600 := Int.tmod_lt_of_pos _ hA
  have hr2 : 0 ≤ (tf.tmod (fi * 3600)).tmod (fi * 60) := Int.tmod_nonneg _ hr1
  have hr2lt : (tf.tmod (fi * 3600)).tmod (fi * 60) < fi * 60 :=
    Int.tmod_lt_of_pos _ hB
  refine ⟨Int.tdiv_nonneg htf hA.le, Int.tdiv_nonneg hr1 hB.le, ?_,
    Int.tdiv_nonneg hr2 (by linarith), ?_, Int.tmod_nonneg _ hr2,
    Int.tmod_lt_of_pos _ (by linarith)⟩
  · rw [Int.tdiv_eq_ediv hr1 hB.le]
    exact (Int.ediv_lt_iff_lt_mul hB).2 (by linarith)
  · rw [Int.tdiv_eq_ediv hr2 (by linarith)]
    exact (Int.ediv_lt_iff_lt_mul (by linarith)).2 (by linarith)

/-- Under the same precondition, the two carry branches change nothing. -/
theorem tc_carry_noop (seconds fps : ℚ) (hfi : 1 ≤ croundQ fps) :
    tc_carry (tc_raw seconds fps) = tc_raw seconds fps := by
  obtain ⟨-, -, hm, -, hs, -, -⟩ := tc_raw_bounds seconds fps hfi
  generalize htr : tc_raw seconds fps = t at hm hs
  obtain ⟨h, m, s, f⟩ := t
  simp only at hm hs
  simp only [tc_carry]
  simp only [if_neg (show ¬ (60:ℤ) ≤ s by omega)]
  simp only [if_neg (show ¬ (60:ℤ) ≤ m by omega)]

/-- Reconstruction identity of the pre-carry fields (pure division
algebra, no precondition needed). -/
theorem tc_raw_reconstruct (seconds fps : ℚ) :
    ((tc_raw seconds fps).1 * 3600 + (tc_raw seconds fps).2.1 * 60 +
        (tc_raw seconds fps).2.2.1) * croundQ fps +
      (tc_raw seconds fps).2.2.2 = tc_total_frames seconds fps := by
  simp only [tc_raw]
  have h1 := Int.tdiv_add_tmod (tc_total_frames seconds fps) (croundQ fps * 3600)
  have h2 := Int.tdiv_add_tmod
    ((tc_total_frames seconds fps).tmod (croundQ fps * 3600)) (croundQ fps * 60)
  have h3 := Int.tdiv_add_tmod
    (((tc_total_frames seconds fps).tmod (croundQ fps * 3600)).tmod
      (croundQ fps * 60)) (croundQ fps)
  linear_combination h1 + h2 + h3

/-- Reconstruction identity for the full `time_to_tc`. -/
theorem time_to_tc_reconstruct (seconds fps : ℚ) (hs : 0 ≤ seconds)
    (hfi : 1 ≤ croundQ fps) :
    ((time_to_tc seconds fps).1 * 3600 + (time_to_tc seconds fps).2.1 * 60 +
        (time_to_tc seconds fps).2.2.1) * croundQ fps +
      (time_to_tc seconds fps).2.2.2 = croundQ (seconds * fps) := by
  rw [time_to_tc, tc_carry_noop seconds fps hfi, tc_raw_reconstruct,
    tc_total_frames, if_neg (not_lt.2 hs)]

/-- C3: `time_to_tc` clamps negative seconds to 0, computes
`totalFrames = round(seconds * fps)` with the exact fractional fps, sets
`fpsInt = round(fps)`, derives hours as `totalFrames div (fpsInt*3600)`,
minutes and seconds by successive Euclidean division of the remainder by
`fpsInt*60` and `fpsInt`, frames as the final remainder, and carries
seconds into minutes and minutes into hours at 60 (for a positive frame
rate the code's C truncating division coincides with Euclidean
division). -/
theorem time_to_tc_follows_claim (seconds fps : ℚ) (hfps : 0 < fps) :
    time_to_tc seconds fps = time_to_tc_claim seconds fps := by
  have htf : 0 ≤ tc_total_frames seconds fps := tc_total_frames_nonneg hfps.le
  have hfi : 0 ≤ croundQ fps := croundQ_nonneg hfps.le
  rw [tc_total_frames] at htf
  simp only [time_to_tc, time_to_tc_claim, tc_raw, tc_carry, tc_total_frames]
  set tf := croundQ ((if seconds < 0 then 0 else seconds) * fps) with htfdef
  set fi := croundQ fps with hfidef
  have hA : (0:ℤ) ≤ fi * 3600 := by positivity
  have hB : (0:ℤ) ≤ fi * 60 := by positivity
  have hr1 : 0 ≤ tf.tmod (fi * 3600) := Int.tmod_nonneg _ htf
  have hr2 : 0 ≤ (tf.tmod (fi * 3600)).tmod (fi * 60) := Int.tmod_nonneg _ hr1
  have hmin : 0 ≤ (tf.tmod (fi * 3600)).tdiv (fi * 60) := Int.tdiv_nonneg hr1 hB
  have hsec : 0 ≤ ((tf.tmod (fi * 3600)).tmod (fi * 60)).tdiv fi :=
    Int.tdiv_nonneg hr2 hfi
  rw [Int.tdiv_eq_ediv htf hA, Int.tmod_eq_emod htf hA]
  rw [Int.tmod_eq_emod htf hA] at hr1 hr2 hmin hsec
  rw [Int.tdiv_eq_ediv hr1 hB, Int.tmod_eq_emod hr1 hB]
  rw [Int.tmod_eq_emod hr1 hB] at hr2 hsec
  rw [Int.tdiv_eq_ediv hr1 hB] at hmin
  rw [Int.tdiv_eq_ediv hr2 hfi, Int.tmod_eq_emod hr2 hfi]
  rw [Int.tdiv_eq_ediv hr2 hfi] at hsec
  rw [Int.tdiv_eq_ediv hsec (by norm_num), Int.tmod_eq_emod hsec (by norm_num)]
  have hm2 : 0 ≤ (if 60 ≤ tf % (fi * 3600) % (fi * 60) / fi then
      tf % (fi * 3600) / (fi * 60) + tf % (fi * 3600) % (fi * 60) / fi / 60
    else tf % (fi * 3600) / (fi * 60)) := by
    split_ifs with h
    · have h60 : 0 ≤ tf % (fi * 3600) % (fi * 60) / fi / 60 :=
        Int.ediv_nonneg hsec (by norm_num)
      omega
    · exact hmin
  rw [Int.tdiv_eq_ediv hm2 (by norm_num), Int.tmod_eq_emod hm2 (by norm_num)]

/-- Witness for C3: the structural equality holds at 90061.5 seconds and
29.97 fps. -/
theorem time_to_tc_follows_claim_witness :
    (0:ℚ) < mkRat 2997 100 ∧
    time_to_tc (mkRat 180123 2) (mkRat 2997 100) =
      time_to_tc_claim (mkRat 180123 2) (mkRat 2997 100) :=
  ⟨by norm_num [Rat.mkRat_eq_div],
   time_to_tc_follows_claim (mkRat 180123 2) (mkRat 2997 100)
     (by norm_num [Rat.mkRat_eq_div])⟩

/-- C4: for the seven supported frame rates and any nonnegative time,
reconstructing total frames from the four formatted fields with
`round(fps)` reproduces `round(seconds * fps)` exactly. -/
theorem timecode_roundtrip (seconds fps : ℚ) (hs : 0 ≤ seconds)
    (hmem : fps ∈ [mkRat 23976 1000, 24, 25, mkRat 2997 100, 30,
      mkRat 5994 100, 60]) :
    ((time_to_tc seconds fps).1 * 3600 + (time_to_tc seconds fps).2.1 * 60 +
        (time_to_tc seconds fps).2.2.1) * croundQ fps +
      (time_to_tc seconds fps).2.2.2 = croundQ (seconds * fps) := by
  have hfi : 1 ≤ croundQ fps := by
    fin_cases hmem <;> with_unfolding_all decide
  exact time_to_tc_reconstruct seconds fps hs hfi

/-- Witness for C4 at 7200.5 seconds (past the 2-hour mark), 29.97 fps. -/
theorem timecode_roundtrip_witness :
    (0:ℚ) ≤ mkRat 14401 2 ∧
    ((time_to_tc (mkRat 14401 2) (mkRat 2997 100)).1 * 3600 +
        (time_to_tc (mkRat 14401 2) (mkRat 2997 100)).2.1 * 60 +
        (time_to_tc (mkRat 14401 2) (mkRat 2997 100)).2.2.1) *
        croundQ (mkRat 2997 100) +
      (time_to_tc (mkRat 14401 2) (mkRat 2997 100)).2.2.2 =
      croundQ (mkRat 14401 2 * mkRat 2997 100) :=
  ⟨by norm_num [Rat.mkRat_eq_div],
   timecode_roundtrip (mkRat 14401 2) (mkRat 2997 100)
     (by norm_num [Rat.mkRat_eq_div]) (by simp)⟩

/-- C10: with `round(fps) ≥ 1` the pre-carry minutes, seconds and frames
fields are already in range, so both carry branches are no-ops, and all
three divisors of the field computation are positive (no division by
zero). -/
theorem tc_carry_unreachable (seconds fps : ℚ) (hfi : 1 ≤ croundQ fps) :
    (0 ≤ (tc_raw seconds fps).2.1 ∧ (tc_raw seconds fps).2.1 < 60) ∧
    (0 ≤ (tc_raw seconds fps).2.2.1 ∧ (tc_raw seconds fps).2.2.1 < 60) ∧
    (0 ≤ (tc_raw seconds fps).2.2.2 ∧
      (tc_raw seconds fps).2.2.2 < croundQ fps) ∧
    tc_carry (tc_raw seconds fps) = tc_raw seconds fps ∧
    0 < croundQ fps * 3600 ∧ 0 < croundQ fps * 60 ∧ 0 < croundQ fps := by
  obtain ⟨-, h2, h3, h4, h5, h6, h7⟩ := tc_raw_bounds seconds fps hfi
  exact ⟨⟨h2, h3⟩, ⟨h4, h5⟩, ⟨h6, h7⟩, tc_carry_noop seconds fps hfi,
    by omega, by omega, by omega⟩

/-- Witness for C10 at 59.5 seconds, 24 fps. -/
theorem tc_carry_unreachable_witness :
    1 ≤ croundQ 24 ∧
    tc_carry (tc_raw (mkRat 119 2) 24) = tc_raw (mkRat 119 2) 24 :=
  ⟨by with_unfolding_all decide,
   (tc_carry_unreachable (mkRat 119 2) 24
     (by with_unfolding_all decide)).2.2.2.1⟩

/-- C5: the code's clip-range trimming coincides with the spec's
description (drop on start before `rangeStart` or at/after `rangeEnd`,
clamp the end to `rangeEnd`, re-base both times by `rangeStart`, and no
other change) on every input. -/
theorem range_trim_follows_spec (s e : ℚ) (ss to_ : Option ℚ) :
    adjust_timestamp_for_range s e ss to_ = range_trim_spec s e ss to_ := by
  cases ss <;> cases to_ <;>
    simp only [adjust_timestamp_for_range, range_trim_spec, Bool.or_eq_true,
      Bool.false_or, Bool.or_false] <;>
    split_ifs <;> simp_all <;>
    (try (rename_i hor; rcases hor with h | h <;> linarith))

/-- C6: for a Show frame whose explicit display times fail the code's
validity test, the resolved start is the adjusted packet timestamp and
the resolved end follows the spec's lookahead rule. -/
theorem show_frame_lookahead_end (vstart : ℚ) (cur : SubtitleFrame)
    (nxt : Option SubtitleFrame) (_hshow : cur.bitmap.isSome)
    (hinv : ¬ valid_display_times cur) :
    resolveTimes vstart cur nxt =
      (cur.timestamp - vstart,
        lookahead_end_spec vstart (cur.timestamp - vstart) nxt) := by
  rw [resolveTimes, if_neg hinv]
  cases nxt with
  | none => simp [lookahead_end_spec, adjust_timestamp]
  | some f =>
      by_cases hb : f.bitmap.isSome
      · by_cases hv : valid_display_times f
        · simp [lookahead_end_spec, adjust_timestamp, hb, hv]
        · simp [lookahead_end_spec, adjust_timestamp, hb, hv]
      · simp [lookahead_end_spec, adjust_timestamp, hb]

/-- Witness for C6: a Show frame with absent display times (both zero)
whose end is taken from the following Clear frame's timestamp. -/
theorem show_frame_lookahead_end_witness :
    ¬ valid_display_times ⟨some (4, 4), 2, 0, 0, 0, 0⟩ ∧
    resolveTimes 0 ⟨some (4, 4), 2, 0, 0, 0, 0⟩ (some ⟨none, 5, 0, 0, 0, 0⟩) =
      ((2:ℚ) - 0, lookahead_end_spec 0 ((2:ℚ) - 0) (some ⟨none, 5, 0, 0, 0, 0⟩)) :=
  ⟨by decide,
   show_frame_lookahead_end 0 ⟨some (4, 4), 2, 0, 0, 0, 0⟩
     (some ⟨none, 5, 0, 0, 0, 0⟩) (by decide) (by decide)⟩

/-- C7 counterexample: a source pixel with zero alpha but nonzero color
channels over a fully transparent destination is skipped by the code
(the `a > 0` guard), whereas the claim's rule (destination alpha = 0 ⇒
overwrite with the exact source RGBA) would store the source color. -/
theorem blend_pixel_claim_counterexample :
    blend_pixel ⟨9, 9, 9, 0⟩ ⟨0, 0, 0, 0⟩ = ⟨0, 0, 0, 0⟩ ∧
    blend_pixel_claim ⟨9, 9, 9, 0⟩ ⟨0, 0, 0, 0⟩ = ⟨9, 9, 9, 0⟩ ∧
    blend_pixel ⟨9, 9, 9, 0⟩ ⟨0, 0, 0, 0⟩ ≠
      blend_pixel_claim ⟨9, 9, 9, 0⟩ ⟨0, 0, 0, 0⟩ := by
  refine ⟨?_, ?_, ?_⟩ <;> with_unfolding_all decide

/-- C7 amended: a source pixel with positive alpha follows the claim's
overwrite/blend rule exactly; a source pixel with zero alpha leaves the
destination unchanged (in particular, a 50%-alpha pixel over a fully
transparent destination is stored exactly, by the overwrite case). -/
theorem blend_pixel_amended (src dst : RGBA) :
    blend_pixel src dst =
      if 0 < src.a then blend_pixel_claim src dst else dst := by
  by_cases h : 0 < src.a <;> simp [blend_pixel, blend_pixel_claim, h]

/-- C1 counterexample: a Show frame with valid explicit display times
(interval (1.5, 3) at stream start 0), then a Clear frame at 2.5, then
a further Show frame (so the Clear is not stream-final and the loop does
process it); the first event's final end is the Clear timestamp 2.5, not
the explicit end 3, so the emitted interval does depend on the
neighboring Clear frame. -/
theorem explicit_interval_counterexample :
    process_frames ⟨0, none, none⟩
      [⟨some (10, 5), 1, mkRat 3 2, 3, 0, 0⟩, ⟨none, mkRat 5 2, 0, 0, 0, 0⟩,
       ⟨some (4, 4), mkRat 7 2, 4, 5, 0, 0⟩] =
      [⟨mkRat 3 2, mkRat 5 2, 0, 0, 10, 5⟩, ⟨4, 5, 0, 0, 4, 4⟩] ∧
    (mkRat 5 2 : ℚ) ≠ 3 - 0 := by
  constructor <;> with_unfolding_all decide

/-- C1 amended: at its own processing step, a nonempty Show frame whose
explicit display times pass the code's validity test (display start
positive and before display end) appends exactly the event
(displayStart − streamStart, displayEnd − streamStart) when no clip
range is set, for any lookahead frame; a later, non-stream-final Clear
frame may rewrite that event's stored end afterwards. -/
theorem explicit_interval_at_emission (cfg : RunConfig) (cur : SubtitleFrame)
    (nxt : Option SubtitleFrame) (events : List SubtitleEvent) (w h : ℕ)
    (hb : cur.bitmap = some (w, h)) (hw : w ≠ 0) (hh : h ≠ 0)
    (hv : valid_display_times cur)
    (hss : cfg.ss = none) (hto : cfg.to_ = none) :
    process_frame cfg cur nxt events =
      events ++ [{ in_tc := cur.start_time - cfg.start_time,
                   out_tc := cur.end_time - cfg.start_time,
                   x := cur.x, y := cur.y, width := w, height := h }] := by
  simp only [process_frame, hb]
  rw [if_neg (by push_neg; exact ⟨hw, hh⟩)]
  rw [resolveTimes, if_pos hv]
  simp only [adjust_timestamp, adjust_timestamp_for_range, hss, hto]
  rw [if_neg (by simp), if_neg (by simp)]
  dsimp only
  rw [if_neg (not_le.2 (by have h2 := hv.2; exact sub_lt_sub_right h2 _))]

/-- Witness for C1 amended: stream start 0.5, explicit times (1.5, 3),
with a Clear frame as lookahead and one event already emitted. -/
theorem explicit_interval_at_emission_witness :
    valid_display_times ⟨some (10, 5), 1, mkRat 3 2, 3, 7, 9⟩ ∧
    process_frame ⟨mkRat 1 2, none, none⟩ ⟨some (10, 5), 1, mkRat 3 2, 3, 7, 9⟩
        (some ⟨none, 4, 0, 0, 0, 0⟩) [⟨0, 1, 0, 0, 2, 2⟩] =
      [⟨0, 1, 0, 0, 2, 2⟩] ++
        [{ in_tc := mkRat 3 2 - mkRat 1 2, out_tc := 3 - mkRat 1 2,
           x := 7, y := 9, width := 10, height := 5 }] :=
  ⟨by decide,
   explicit_interval_at_emission ⟨mkRat 1 2, none, none⟩
     ⟨some (10, 5), 1, mkRat 3 2, 3, 7, 9⟩ (some ⟨none, 4, 0, 0, 0, 0⟩)
     [⟨0, 1, 0, 0, 2, 2⟩] 10 5 rfl (by decide) (by decide) (by decide) rfl rfl⟩

/-- C2 counterexample: a Show frame with explicit interval (2, 4), then
a Clear frame at 1.5, then a further Show frame (so the Clear is not
stream-final and the loop does process it); the Clear rewrites the
first event's end to 1.5, leaving a negative-duration event (2, 1.5) in
the final output. -/
theorem positive_duration_counterexample :
    process_frames ⟨0, none, none⟩
      [⟨some (8, 2), 1, 2, 4, 0, 0⟩, ⟨none, mkRat 3 2, 0, 0, 0, 0⟩,
       ⟨some (4, 4), 5, 5, 6, 0, 0⟩] =
      [⟨2, mkRat 3 2, 0, 0, 8, 2⟩, ⟨5, 6, 0, 0, 4, 4⟩] ∧
    ¬ ((2:ℚ) < mkRat 3 2) := by
  constructor <;> with_unfolding_all decide

/-- One step of the loop preserves "all stored events have positive
duration", provided the current frame is not a Clear command. -/
theorem process_frame_preserves_pos (cfg : RunConfig) (cur : SubtitleFrame)
    (nxt : Option SubtitleFrame) (events : List SubtitleEvent)
    (hclear : cur.bitmap = none → cur.timestamp ≤ 0)
    (hev : ∀ ev ∈ events, ev.in_tc < ev.out_tc) :
    ∀ ev ∈ process_frame cfg cur nxt events, ev.in_tc < ev.out_tc := by
  intro ev hmem
  cases hcb : cur.bitmap with
  | none =>
      simp only [process_frame, hcb] at hmem
      rw [if_neg (not_lt.2 (hclear hcb))] at hmem
      exact hev ev hmem
  | some wh =>
      obtain ⟨w, h⟩ := wh
      simp only [process_frame, hcb] at hmem
      by_cases hwz : w = 0 ∨ h = 0
      · rw [if_pos hwz] at hmem
        exact hev ev hmem
      · rw [if_neg hwz] at hmem
        cases hr : adjust_timestamp_for_range
            (resolveTimes cfg.start_time cur nxt).1
            (resolveTimes cfg.start_time cur nxt).2 cfg.ss cfg.to_ with
        | none =>
            rw [hr] at hmem
            exact hev ev hmem
        | some se =>
            obtain ⟨s, e⟩ := se
            rw [hr] at hmem
            dsimp only at hmem
            by_cases hle : e ≤ s
            · rw [if_pos hle] at hmem
              exact hev ev hmem
            · rw [if_neg hle] at hmem
              rcases List.mem_append.1 hmem with hm | hm
              · exact hev ev hm
              · rw [List.mem_singleton.1 hm]
                exact not_le.1 hle

/-- The loop invariant lifted to the whole do-while loop. -/
theorem run_loop_pos (cfg : RunConfig) :
    ∀ (rest : List SubtitleFrame) (cur : SubtitleFrame)
      (events : List SubtitleEvent),
      (∀ f ∈ cur :: rest, f.bitmap = none → f.timestamp ≤ 0) →
      (∀ ev ∈ events, ev.in_tc < ev.out_tc) →
      ∀ ev ∈ run_loop cfg cur rest events, ev.in_tc < ev.out_tc := by
  intro rest
  induction rest with
  | nil =>
      intro cur events hfr hev
      simp only [run_loop]
      exact process_frame_preserves_pos cfg cur none events
        (hfr cur (List.mem_cons_self _ _)) hev
  | cons nxt rest2 ih =>
      intro cur events hfr hev
      simp only [run_loop]
      have hev2 := process_frame_preserves_pos cfg cur (some nxt) events
        (hfr cur (List.mem_cons_self _ _)) hev
      split_ifs with hcond
      · exact ih nxt _ (fun f hf => hfr f (List.mem_cons_of_mem _ hf)) hev2
      · exact hev2

/-- C2 amended: every event has strictly positive duration at emission;
consequently, for any input stream with no Clear command (the only path
that rewrites a stored end time), every event of the final output list
has strictly positive duration.  (The counterexample shows a processed,
non-stream-final Clear can rewrite the last event's end below its
start.) -/
theorem events_positive_duration (cfg : RunConfig)
    (frames : List SubtitleFrame)
    (hnc : ∀ f ∈ frames, f.bitmap = none → f.timestamp ≤ 0) :
    ∀ ev ∈ process_frames cfg frames, ev.in_tc < ev.out_tc := by
  cases frames with
  | nil => simp [process_frames]
  | cons f rest => exact run_loop_pos cfg rest f [] hnc (by simp)

/-- Witness for C2 amended: a single Show frame with explicit times. -/
theorem events_positive_duration_witness : (1:ℚ) < 2 :=
  events_positive_duration ⟨0, none, none⟩ [⟨some (4, 4), 1, 1, 2, 0, 0⟩]
    (by decide) ⟨1, 2, 0, 0, 4, 4⟩ (by with_unfolding_all decide)

/-- Rewriting the last event's end time leaves the list of start times
unchanged. -/
theorem set_last_out_map_in (t : ℚ) :
    ∀ evs : List SubtitleEvent,
      (set_last_out evs t).map SubtitleEvent.in_tc =
        evs.map SubtitleEvent.in_tc
  | [] => rfl
  | [_] => rfl
  | e :: e2 :: es => by
      show SubtitleEvent.in_tc e ::
          (set_last_out (e2 :: es) t).map SubtitleEvent.in_tc =
        SubtitleEvent.in_tc e :: (e2 :: es).map SubtitleEvent.in_tc
      rw [set_last_out_map_in t (e2 :: es)]

/-- Every element of `set_last_out evs t` shares its start time with an
element of `evs`. -/
theorem mem_set_last_out_in {evs : List SubtitleEvent} {t : ℚ}
    {ev : SubtitleEvent} (h : ev ∈ set_last_out evs t) :
    ∃ e0 ∈ evs, ev.in_tc = e0.in_tc := by
  have hm : ev.in_tc ∈ (set_last_out evs t).map SubtitleEvent.in_tc :=
    List.mem_map_of_mem _ h
  rw [set_last_out_map_in] at hm
  obtain ⟨e0, he0, heq⟩ := List.mem_map.1 hm
  exact ⟨e0, he0, heq.symm⟩

/-- Rewriting the last end time preserves sortedness by start time. -/
theorem pairwise_in_set_last_out {evs : List SubtitleEvent} {t : ℚ}
    (h : List.Pairwise (fun a b => a.in_tc ≤ b.in_tc) evs) :
    List.Pairwise (fun a b => a.in_tc ≤ b.in_tc) (set_last_out evs t) := by
  have h2 : List.Pairwise (fun a b : ℚ => a ≤ b)
      (evs.map SubtitleEvent.in_tc) := List.pairwise_map.2 h
  rw [← set_last_out_map_in t evs] at h2
  exact List.pairwise_map.1 h2

/-- The first component of the resolved interval is `resolved_start`. -/
theorem resolveTimes_fst (vstart : ℚ) (cur : SubtitleFrame)
    (nxt : Option SubtitleFrame) :
    (resolveTimes vstart cur nxt).1 = resolved_start vstart cur := by
  by_cases h : valid_display_times cur <;>
    simp [resolveTimes, resolved_start, adjust_timestamp, h]

/-- A kept event's start is the input start shifted by `rangeStart`. -/
theorem range_keep_start {s e s2 e2 : ℚ} {ss to_ : Option ℚ}
    (h : adjust_timestamp_for_range s e ss to_ = some (s2, e2)) :
    s2 = s - ss.getD 0 := by
  simp only [adjust_timestamp_for_range] at h
  split_ifs at h with h1 h2
  cases ss <;> cases to_ <;> simp_all

/-- One step of the loop either leaves the event list unchanged,
rewrites only the last end time, or appends one event whose start is
the current Show frame's resolved start shifted by `rangeStart`. -/
theorem process_frame_shape (cfg : RunConfig) (cur : SubtitleFrame)
    (nxt : Option SubtitleFrame) (events : List SubtitleEvent) :
    process_frame cfg cur nxt events = events ∨
    (∃ t, process_frame cfg cur nxt events = set_last_out events t) ∨
    (cur.bitmap.isSome = true ∧
      ∃ ev, ev.in_tc = resolved_start cfg.start_time cur - cfg.ss.getD 0 ∧
        process_frame cfg cur nxt events = events ++ [ev]) := by
  cases hcb : cur.bitmap with
  | none =>
      by_cases hts : 0 < cur.timestamp
      · refine Or.inr (Or.inl ⟨clear_end_time cfg cur.timestamp, ?_⟩)
        simp only [process_frame, hcb, if_pos hts]
      · refine Or.inl ?_
        simp only [process_frame, hcb, if_neg hts]
  | some wh =>
      obtain ⟨w, h⟩ := wh
      by_cases hwz : w = 0 ∨ h = 0
      · refine Or.inl ?_
        simp only [process_frame, hcb]
        rw [if_pos hwz]
      · cases hr : adjust_timestamp_for_range
            (resolveTimes cfg.start_time cur nxt).1
            (resolveTimes cfg.start_time cur nxt).2 cfg.ss cfg.to_ with
        | none =>
            refine Or.inl ?_
            simp only [process_frame, hcb]
            rw [if_neg hwz, hr]
        | some se =>
            obtain ⟨s, e⟩ := se
            have hs : s = resolved_start cfg.start_time cur - cfg.ss.getD 0 := by
              have h2 := range_keep_start hr
              rwa [resolveTimes_fst] at h2
            by_cases hle : e ≤ s
            · refine Or.inl ?_
              simp only [process_frame, hcb]
              rw [if_neg hwz, hr]
              dsimp only
              rw [if_pos hle]
            · refine Or.inr (Or.inr ⟨by rfl,
                ⟨s, e, cur.x, cur.y, w, h⟩, hs, ?_⟩)
              simp only [process_frame, hcb]
              rw [if_neg hwz, hr]
              dsimp only
              rw [if_neg hle]

/-- One step preserves sortedness by start time, given that every stored
event starts no later than the current frame's resolved start. -/
theorem process_frame_sorted_step (cfg : RunConfig) (cur : SubtitleFrame)
    (nxt : Option SubtitleFrame) (events : List SubtitleEvent)
    (hsorted : List.Pairwise
      (fun a b : SubtitleEvent => a.in_tc ≤ b.in_tc) events)
    (hb : ∀ ev ∈ events, cur.bitmap.isSome = true →
      ev.in_tc ≤ resolved_start cfg.start_time cur - cfg.ss.getD 0) :
    List.Pairwise (fun a b : SubtitleEvent => a.in_tc ≤ b.in_tc)
      (process_frame cfg cur nxt events) := by
  rcases process_frame_shape cfg cur nxt events with heq | ⟨t, heq⟩ |
    ⟨hsome, ev, hev, heq⟩
  · rw [heq]
    exact hsorted
  · rw [heq]
    exact pairwise_in_set_last_out hsorted
  · rw [heq, List.pairwise_append]
    refine ⟨hsorted, List.pairwise_singleton _ _, ?_⟩
    intro a ha b hbm
    rw [List.mem_singleton.1 hbm, hev]
    exact hb a ha hsome

/-- Every event after one step starts where some stored event started,
or at the current Show frame's resolved start. -/
theorem process_frame_mem_in (cfg : RunConfig) (cur : SubtitleFrame)
    (nxt : Option SubtitleFrame) (events : List SubtitleEvent)
    (ev : SubtitleEvent) (hmem : ev ∈ process_frame cfg cur nxt events) :
    (∃ e0 ∈ events, ev.in_tc = e0.in_tc) ∨
    (cur.bitmap.isSome = true ∧
      ev.in_tc = resolved_start cfg.start_time cur - cfg.ss.getD 0) := by
  rcases process_frame_shape cfg cur nxt events with heq | ⟨t, heq⟩ |
    ⟨hsome, ev2, hev2, heq⟩
  · rw [heq] at hmem
    exact Or.inl ⟨ev, hmem, rfl⟩
  · rw [heq] at hmem
    exact Or.inl (mem_set_last_out_in hmem)
  · rw [heq] at hmem
    rcases List.mem_append.1 hmem with hm | hm
    · exact Or.inl ⟨ev, hm, rfl⟩
    · have h3 := List.mem_singleton.1 hm
      subst h3
      exact Or.inr ⟨hsome, hev2⟩

/-- The do-while loop preserves sortedness-by-start when the Show frames
still to come all resolve to starts at least as late as every stored
event. -/
theorem run_loop_sorted (cfg : RunConfig) :
    ∀ (rest : List SubtitleFrame) (cur : SubtitleFrame)
      (events : List SubtitleEvent),
      (cur :: rest).Pairwise (fun f g => f.bitmap.isSome = true →
        g.bitmap.isSome = true →
        resolved_start cfg.start_time f ≤ resolved_start cfg.start_time g) →
      List.Pairwise (fun a b : SubtitleEvent => a.in_tc ≤ b.in_tc) events →
      (∀ ev ∈ events, ∀ f ∈ cur :: rest, f.bitmap.isSome = true →
        ev.in_tc ≤ resolved_start cfg.start_time f - cfg.ss.getD 0) →
      List.Pairwise (fun a b : SubtitleEvent => a.in_tc ≤ b.in_tc)
        (run_loop cfg cur rest events) := by
  intro rest
  induction rest with
  | nil =>
      intro cur events _ hsorted hbound
      simp only [run_loop]
      exact process_frame_sorted_step cfg cur none events hsorted
        (fun ev hev => hbound ev hev cur (List.mem_cons_self _ _))
  | cons nxt rest2 ih =>
      intro cur events hmono hsorted hbound
      obtain ⟨hhead, htail⟩ := List.pairwise_cons.1 hmono
      simp only [run_loop]
      have hsorted2 := process_frame_sorted_step cfg cur (some nxt) events
        hsorted (fun ev hev => hbound ev hev cur (List.mem_cons_self _ _))
      have hbound2 : ∀ ev ∈ process_frame cfg cur (some nxt) events,
          ∀ f ∈ nxt :: rest2, f.bitmap.isSome = true →
          ev.in_tc ≤ resolved_start cfg.start_time f - cfg.ss.getD 0 := by
        intro ev hev f hf hsome
        rcases process_frame_mem_in cfg cur (some nxt) events ev hev with
          ⟨e0, he0, heq⟩ | ⟨hsome2, heq⟩
        · rw [heq]
          exact hbound e0 he0 f (List.mem_cons_of_mem _ hf) hsome
        · rw [heq]
          exact sub_le_sub_right (hhead f hf hsome2 hsome) _
      split_ifs with hcond
      · exact ih nxt _ htail hsorted2 hbound2
      · exact hsorted2

/-- C8 counterexample: two Show frames with monotone packet timestamps
but decreasing explicit display starts; the output events' start times
decrease, so the events are not in non-decreasing start-time order. -/
theorem events_start_ordered_counterexample :
    process_frames ⟨0, none, none⟩
      [⟨some (4, 4), 1, 6, 7, 0, 0⟩, ⟨some (4, 4), 2, 3, 4, 0, 0⟩] =
      [⟨6, 7, 0, 0, 4, 4⟩, ⟨3, 4, 0, 0, 4, 4⟩] ∧
    ¬ ((6:ℚ) ≤ 3) := by
  constructor <;> with_unfolding_all decide

/-- C8 amended: the pipeline never reorders — events are only ever
appended in decode order (and a Clear only rewrites the last end time) —
so the output start times are non-decreasing whenever the Show frames'
resolved starts are non-decreasing in decode order; with decreasing
explicit display starts the output order can decrease. -/
theorem events_start_ordered (cfg : RunConfig) (frames : List SubtitleFrame)
    (hmono : frames.Pairwise (fun f g => f.bitmap.isSome = true →
      g.bitmap.isSome = true →
      resolved_start cfg.start_time f ≤ resolved_start cfg.start_time g)) :
    List.Pairwise (fun a b : SubtitleEvent => a.in_tc ≤ b.in_tc)
      (process_frames cfg frames) := by
  cases frames with
  | nil => simp [process_frames]
  | cons f rest => exact run_loop_sorted cfg rest f [] hmono (by simp) (by simp)

/-- Witness for C8 amended: two Show frames with increasing resolved
starts and an interleaved Clear frame. -/
theorem events_start_ordered_witness :
    List.Pairwise (fun a b : SubtitleEvent => a.in_tc ≤ b.in_tc)
      (process_frames ⟨0, none, none⟩
        [⟨some (4, 4), 1, 1, 2, 0, 0⟩, ⟨none, 3, 0, 0, 0, 0⟩,
         ⟨some (4, 4), 4, 4, 6, 0, 0⟩]) :=
  events_start_ordered ⟨0, none, none⟩
    [⟨some (4, 4), 1, 1, 2, 0, 0⟩, ⟨none, 3, 0, 0, 0, 0⟩,
     ⟨some (4, 4), 4, 4, 6, 0, 0⟩]
    (by with_unfolding_all decide)

/-- C9 counterexample: after a Clear at 3 has already closed the only
event, a second Clear at 4 arrives with no open event — yet, being
followed by a further Show frame (so the loop does process it), it
rewrites the closed event's end time from 3 to 4. -/
theorem clear_no_open_event_counterexample :
    process_frames ⟨0, none, none⟩
      [⟨some (4, 4), 1, 1, 2, 0, 0⟩, ⟨none, 3, 0, 0, 0, 0⟩,
       ⟨none, 4, 0, 0, 0, 0⟩, ⟨some (4, 4), 5, 6, 7, 0, 0⟩] =
      [⟨1, 4, 0, 0, 4, 4⟩, ⟨6, 7, 0, 0, 4, 4⟩] ∧ (4:ℚ) ≠ 3 := by
  constructor <;> with_unfolding_all decide

/-- C9 amended: a Clear frame arriving before any event has been emitted
produces no output event, modifies nothing, and raises no error — the
run continues exactly as if the Clear were absent; once events exist, a
Clear that the loop processes (one that is not the stream-final frame)
rewrites the last stored event's end time, open or not, while a
stream-final Clear is skipped by the loop-exit test. -/
theorem clear_with_no_events (cfg : RunConfig) (f : SubtitleFrame)
    (rest : List SubtitleFrame) (hb : f.bitmap = none)
    (_hts : 0 < f.timestamp) :
    process_frames cfg (f :: rest) = process_frames cfg rest := by
  have h0 : ∀ la : Option SubtitleFrame, process_frame cfg f la [] = [] := by
    intro la
    simp only [process_frame, hb]
    rw [if_pos _hts]
    rfl
  cases rest with
  | nil =>
      show run_loop cfg f [] [] = ([] : List SubtitleEvent)
      simp only [run_loop]
      exact h0 none
  | cons r rest2 =>
      show run_loop cfg f (r :: rest2) [] = run_loop cfg r rest2 []
      simp only [run_loop]
      rw [h0 (some r)]
      split_ifs with hcond
      · rfl
      · push_neg at hcond
        obtain ⟨hrb, hre⟩ := hcond
        have hrnone : r.bitmap = none := Option.not_isSome_iff_eq_none.1 hrb
        subst hre
        simp only [run_loop, process_frame, hrnone]
        by_cases hrt : 0 < r.timestamp
        · rw [if_pos hrt]
          rfl
        · rw [if_neg hrt]

/-- Witness for C9 amended: a leading Clear frame before a Show frame. -/
theorem clear_with_no_events_witness :
    process_frames ⟨0, none, none⟩
      [⟨none, 1, 0, 0, 0, 0⟩, ⟨some (4, 4), 2, 2, 3, 0, 0⟩] =
      process_frames ⟨0, none, none⟩ [⟨some (4, 4), 2, 2, 3, 0, 0⟩] :=
  clear_with_no_events ⟨0, none, none⟩ ⟨none, 1, 0, 0, 0, 0⟩
    [⟨some (4, 4), 2, 2, 3, 0, 0⟩] rfl (by norm_num)

end AribTwoBdnxml
